import Mathlib

/-!
Shallow embedding of the JWT key-register module (`register.go`) of the
`jwt` Go library, together with proofs about its verification dispatch,
per-family signature verifiers, and PEM credential loading.

Machine integers do not overflow in the modelled code paths; byte strings
are modelled as `List Nat` (each element a byte value), big integers as
`Nat`, and public keys as abstract identifiers (`Nat`).  The Go standard
library (crypto/hmac, crypto/rsa, crypto/ecdsa, crypto/x509, encoding/pem)
is an external collaborator and is modelled by abstract function
environments; the control flow of `register.go` itself is embedded
faithfully.
-/

/-- The hash functions that appear in the three algorithm tables
(Go `crypto.Hash` values SHA-256, SHA-384, SHA-512). -/
inductive Hash where
  | SHA256
  | SHA384
  | SHA512
deriving DecidableEq, Repr

/-- Error values of the jwt package, as far as `register.go` touches them.
`algUnk` is `ErrAlgUnk`, `sigMiss` is `ErrSigMiss`, `unencryptedPEM` is
`errUnencryptedPEM`.  Errors coming out of the external x509/pem layer are
wrapped in dedicated constructors so that they can never be confused with
the package's own sentinel values (in Go they are distinct allocated
`error` values). -/
inductive Err where
  | algUnk
  | sigMiss
  | unsecured
  | headerErr (s : String)
  | claimsErr (s : String)
  | decryptErr (s : String)
  | parseErr (s : String)
  | unsupportedKeyType (s : String)
  | unknownPEMType (s : String)
  | unencryptedPEM
deriving DecidableEq, Repr

/-- `KeyRegister` contains recognized credentials: ECDSA public keys,
RSA public keys and HMAC secrets (`register.go` lines 16-20).  Public keys
are abstract identifiers, secrets are byte strings. -/
structure KeyRegister where
  ECDSAs : List Nat
  RSAs : List Nat
  Secrets : List (List Nat)
deriving DecidableEq, Repr

/-- Abstract model of the Go crypto primitives used by the three signature
verifiers in `KeyRegister.Check`:
`hmacSum hash secret content` is the HMAC digest (`hmac.New(...).Sum`),
`hashSum hash content` is the plain digest (`hash.New().Sum`),
`rsaVerify key hash digest sig` is `rsa.VerifyPKCS1v15(...) == nil`,
`ecdsaVerify key digest r s` is `ecdsa.Verify(...)`. -/
structure CryptoEnv where
  hmacSum : Hash → List Nat → List Nat → List Nat
  hashSum : Hash → List Nat → List Nat
  rsaVerify : Nat → Hash → List Nat → List Nat → Bool
  ecdsaVerify : Nat → List Nat → Nat → Nat → Bool

/-- Big-endian byte-string to integer conversion, `big.Int.SetBytes`. -/
def bytesToNat (bs : List Nat) : Nat :=
  bs.foldl (fun a b => a * 256 + b) 0

/-- The HMAC verifier closure of `KeyRegister.Check` (lines 34-43):
walk the registry's secrets in order; for each, compute the keyed digest of
the content and compare with the signature (`hmac.Equal`; the
`digest.Sum(sig[len(sig):])` in the source only reuses `sig`'s spare
capacity for the digest bytes); succeed on the first match, return
`ErrSigMiss` when the list is exhausted. -/
def verifyHMAC (env : CryptoEnv) (secrets : List (List Nat))
    (content sig : List Nat) (hash : Hash) : Except Err Unit :=
  match secrets with
  | [] => .error .sigMiss
  | secret :: rest =>
      if sig = env.hmacSum hash secret content then .ok ()
      else verifyHMAC env rest content sig hash

/-- Candidate loop of the RSA verifier (lines 51-55): first key for which
`rsa.VerifyPKCS1v15` returns nil succeeds, else `ErrSigMiss`. -/
def verifyRSAList (env : CryptoEnv) (hash : Hash) (digestSum sig : List Nat) :
    List Nat → Except Err Unit
  | [] => .error .sigMiss
  | key :: rest =>
      if env.rsaVerify key hash digestSum sig then .ok ()
      else verifyRSAList env hash digestSum sig rest

/-- The RSA verifier closure of `KeyRegister.Check` (lines 47-57):
the content digest is computed once, then each registered RSA key is
tried in order. -/
def verifyRSA (env : CryptoEnv) (keys : List Nat)
    (content sig : List Nat) (hash : Hash) : Except Err Unit :=
  verifyRSAList env hash (env.hashSum hash content) sig keys

/-- Candidate loop of the ECDSA verifier (lines 67-71). -/
def verifyECDSAList (env : CryptoEnv) (digestSum : List Nat) (r s : Nat) :
    List Nat → Except Err Unit
  | [] => .error .sigMiss
  | key :: rest =>
      if env.ecdsaVerify key digestSum r s then .ok ()
      else verifyECDSAList env digestSum r s rest

/-- The ECDSA verifier closure of `KeyRegister.Check` (lines 61-73):
`r` is `SetBytes(sig[:len(sig)/2])`, `s` is `SetBytes(sig[len(sig)/2:])`
(integer division, no length validation in the source), the content digest
is computed once (`digest.Sum(sig[:0])` only reuses `sig`'s storage), then
each registered ECDSA key is tried in order. -/
def verifyECDSA (env : CryptoEnv) (keys : List Nat)
    (content sig : List Nat) (hash : Hash) : Except Err Unit :=
  let r := bytesToNat (sig.take (sig.length / 2))
  let s := bytesToNat (sig.drop (sig.length / 2))
  verifyECDSAList env (env.hashSum hash content) r s keys

/-- The decoded JOSE header, as far as `register.go` uses it: the
algorithm identifier and the key-identifier hint. -/
structure Header where
  Alg : String
  Kid : String
deriving DecidableEq, Repr

/-- Modelled from the spec: the closed HMAC identifier-to-hash table
`HMACAlgs` (its definition lives outside `register.go`); each identifier
maps deterministically to SHA-256/384/512. -/
def HMACAlgs : List (String × Hash) :=
  [("HS256", .SHA256), ("HS384", .SHA384), ("HS512", .SHA512)]

/-- Modelled from the spec: the closed RSA identifier-to-hash table
`RSAAlgs`. -/
def RSAAlgs : List (String × Hash) :=
  [("RS256", .SHA256), ("RS384", .SHA384), ("RS512", .SHA512)]

/-- Modelled from the spec: the closed ECDSA identifier-to-hash table
`ECDSAAlgs`. -/
def ECDSAAlgs : List (String × Hash) :=
  [("ES256", .SHA256), ("ES384", .SHA384), ("ES512", .SHA512)]

/-- Modelled from the spec: `header.match(algs)` (defined outside
`register.go`) looks the header's algorithm identifier up in the given
closed table and returns the corresponding hash, or the distinguished
`ErrAlgUnk` on a table miss — never a default hash or family. -/
def Header.matchAlgs (h : Header) (algs : List (String × Hash)) :
    Except Err Hash :=
  match algs.lookup h.Alg with
  | some hsh => .ok hsh
  | none => .error .algUnk

/-- The three signature families of the dispatch in `KeyRegister.Check`. -/
inductive Family where
  | hmac
  | rsa
  | ecdsa
deriving DecidableEq, Repr

/-- The table belonging to each family. -/
def famTable : Family → List (String × Hash)
  | .hmac => HMACAlgs
  | .rsa => RSAAlgs
  | .ecdsa => ECDSAAlgs

/-- The family-dispatch chain of `KeyRegister.Check` (lines 31-76):
try `HMACAlgs`, then `RSAAlgs`, then `ECDSAAlgs`; a non-`ErrAlgUnk`
error from a match aborts immediately; a miss in all three tables
propagates the last error. -/
def selectVerifier (h : Header) : Except Err (Family × Hash) :=
  match h.matchAlgs HMACAlgs with
  | .ok hash => .ok (.hmac, hash)
  | .error e =>
      if e ≠ .algUnk then .error e
      else match h.matchAlgs RSAAlgs with
        | .ok hash => .ok (.rsa, hash)
        | .error e =>
            if e ≠ .algUnk then .error e
            else match h.matchAlgs ECDSAAlgs with
              | .ok hash => .ok (.ecdsa, hash)
              | .error e => .error e

/-- The claims set, as far as `register.go` touches it: the key-identifier
field set on line 83 and an abstract payload. -/
structure Claims where
  KeyID : String
  payload : Nat
deriving DecidableEq, Repr

/-- Abstract model of the two helpers `KeyRegister.Check` calls that live
outside `register.go`: `parseHeader token` returns the decoded header and
the signature-offset buffer, and `verifyAndParseClaims token buf hash
verifySig` verifies the signature through the supplied closure and parses
the payload.  Per the call signature on line 78, neither receives the
registry. -/
structure TokenEnv where
  parseHeader : List Nat → Except Err (Header × List Nat)
  verifyAndParseClaims : List Nat → List Nat → Hash →
    (List Nat → List Nat → Hash → Except Err Unit) → Except Err Claims

/-- The verifier closure `KeyRegister.Check` builds for each family
(lines 34-43, 47-57, 61-73): it captures only the registry's credential
list for that family and reads it. -/
def KeyRegister.verifierFor (env : CryptoEnv) (reg : KeyRegister) :
    Family → List Nat → List Nat → Hash → Except Err Unit
  | .hmac => verifyHMAC env reg.Secrets
  | .rsa => verifyRSA env reg.RSAs
  | .ecdsa => verifyECDSA env reg.ECDSAs

/-- `KeyRegister.Check` (lines 25-85): parse the header, select the family
verifier through the table chain, verify and parse the claims, and attach
the header's key identifier.  The registry is threaded explicitly to make
its final state part of the result; the source never assigns to
`reg.ECDSAs`, `reg.RSAs` or `reg.Secrets`, so every branch returns it as
received. -/
def KeyRegister.Check (tenv : TokenEnv) (cenv : CryptoEnv)
    (reg : KeyRegister) (token : List Nat) :
    KeyRegister × Except Err Claims :=
  match tenv.parseHeader token with
  | .error e => (reg, .error e)
  | .ok (header, buf) =>
      match selectVerifier header with
      | .error e => (reg, .error e)
      | .ok (fam, hash) =>
          match tenv.verifyAndParseClaims token buf hash
              (reg.verifierFor cenv fam) with
          | .error e => (reg, .error e)
          | .ok claims => (reg, .ok { claims with KeyID := header.Kid })

/-- A public-key object as produced by the x509 parsing layer and consumed
by `KeyRegister.add` (Go `interface{}`): an ECDSA public key, an RSA public
key, or some other unsupported key type. -/
inductive KeyObj where
  | ecdsaPub (k : Nat)
  | rsaPub (k : Nat)
  | other (desc : String)
deriving DecidableEq, Repr

/-- An ECDSA private key as returned by `x509.ParseECPrivateKey`: its
public component and its private scalar. -/
structure ECPrivateKey where
  PublicKey : Nat
  D : Nat
deriving DecidableEq, Repr

/-- An RSA private key as returned by `x509.ParsePKCS1PrivateKey`: its
public component and its private exponent. -/
structure RSAPrivateKey where
  PublicKey : Nat
  D : Nat
deriving DecidableEq, Repr

/-- A PEM block as returned by `pem.Decode`: its type label, whether
`x509.IsEncryptedPEMBlock` holds for its headers, and its body bytes. -/
structure PEMBlock where
  type : String
  encrypted : Bool
  bytes : List Nat
deriving DecidableEq, Repr

/-- Abstract model of the Go x509 functions `KeyRegister.LoadPEM` calls:
`decrypt block password` is `x509.DecryptPEMBlock` (fails when the
password is wrong or absent), and the four parsers mirror
`x509.ParseCertificates` (a block's DER bytes may hold several
certificates, and each certificate exposes a public-key object),
`x509.ParsePKIXPublicKey`, `x509.ParseECPrivateKey`,
`x509.ParsePKCS1PrivateKey`. -/
structure X509Env where
  decrypt : PEMBlock → List Nat → Except String (List Nat)
  parseCertificates : List Nat → Except String (List KeyObj)
  parsePKIXPublicKey : List Nat → Except String KeyObj
  parseECPrivateKey : List Nat → Except String ECPrivateKey
  parsePKCS1PrivateKey : List Nat → Except String RSAPrivateKey

/-- `KeyRegister.add` (lines 153-163): append an ECDSA or RSA public key
to the matching set, or fail on an unsupported key type.  Go mutates the
receiver before any error can occur later, so the (possibly updated)
register is returned alongside the optional error. -/
def KeyRegister.add (r : KeyRegister) (key : KeyObj) :
    KeyRegister × Option Err :=
  match key with
  | .ecdsaPub k => ({ r with ECDSAs := r.ECDSAs ++ [k] }, none)
  | .rsaPub k => ({ r with RSAs := r.RSAs ++ [k] }, none)
  | .other desc => (r, some (.unsupportedKeyType desc))

/-- The certificate loop of `LoadPEM` (lines 116-120): add each parsed
certificate's public key in order, stopping at the first failure; keys
added before the failure stay in the register. -/
def addAll (r : KeyRegister) : List KeyObj → KeyRegister × Option Err
  | [] => (r, none)
  | key :: rest =>
      match r.add key with
      | (r2, none) => addAll r2 rest
      | (r2, some e) => (r2, some e)

/-- The `switch block.Type` dispatch of `LoadPEM` (lines 110-147), applied
to a block's (possibly decrypted) bytes: certificates and explicit public
keys go through `add`; a private key contributes only its `PublicKey`
component; an unknown type label fails. -/
def dispatchBlock (env : X509Env) (r : KeyRegister) (type : String)
    (bytes : List Nat) : KeyRegister × Option Err :=
  if type = "CERTIFICATE" then
    match env.parseCertificates bytes with
    | .error e => (r, some (.parseErr e))
    | .ok certs => addAll r certs
  else if type = "PUBLIC KEY" then
    match env.parsePKIXPublicKey bytes with
    | .error e => (r, some (.parseErr e))
    | .ok key => r.add key
  else if type = "EC PRIVATE KEY" then
    match env.parseECPrivateKey bytes with
    | .error e => (r, some (.parseErr e))
    | .ok key => ({ r with ECDSAs := r.ECDSAs ++ [key.PublicKey] }, none)
  else if type = "RSA PRIVATE KEY" then
    match env.parsePKCS1PrivateKey bytes with
    | .error e => (r, some (.parseErr e))
    | .ok key => ({ r with RSAs := r.RSAs ++ [key.PublicKey] }, none)
  else (r, some (.unknownPEMType type))

/-- One iteration of the `LoadPEM` loop body for a decoded block
(lines 101-147): an encrypted block is decrypted with the supplied
password (failure aborts); an unencrypted block combined with a non-empty
password fails with `errUnencryptedPEM`; then the type dispatch runs on
the resulting bytes. -/
def processBlock (env : X509Env) (r : KeyRegister) (block : PEMBlock)
    (password : List Nat) : KeyRegister × Option Err :=
  if block.encrypted then
    match env.decrypt block password with
    | .error e => (r, some (.decryptErr e))
    | .ok bytes => dispatchBlock env r block.type bytes
  else if password.length ≠ 0 then (r, some .unencryptedPEM)
  else dispatchBlock env r block.type block.bytes

/-- `KeyRegister.LoadPEM` (lines 93-151).  `pem.Decode` is modelled by
presenting the input buffer as the list of PEM blocks it decodes in
sequence: undecodable leading/trailing bytes never yield a block, so a
buffer with no decodable block is the empty list and the loop returns
`(n, nil)` as soon as no further block decodes.  The counter starts at 0
and is incremented once per fully processed block; a block failure
returns the count so far, the register as mutated so far, and the
error. -/
def KeyRegister.LoadPEM (env : X509Env) (r : KeyRegister)
    (data : List PEMBlock) (password : List Nat) :
    Nat × KeyRegister × Option Err :=
  match data with
  | [] => (0, r, none)
  | block :: remainder =>
      match processBlock env r block password with
      | (r2, some e) => (0, r2, some e)
      | (r2, none) =>
          match KeyRegister.LoadPEM env r2 remainder password with
          | (n, r3, e) => (n + 1, r3, e)

/-- Total number of credentials held by a register. -/
def credCount (r : KeyRegister) : Nat :=
  r.ECDSAs.length + r.RSAs.length + r.Secrets.length

/-- The empty register. -/
def reg0 : KeyRegister := ⟨[], [], []⟩

/-- A concrete crypto environment whose ECDSA verifier accepts every
(key, digest, r, s) tuple and whose RSA verifier accepts nothing. -/
def cenvAccept : CryptoEnv where
  hmacSum := fun _ _ _ => []
  hashSum := fun _ content => content
  rsaVerify := fun _ _ _ _ => false
  ecdsaVerify := fun _ _ _ _ => true

/-- A concrete token environment whose header parser always yields the
algorithm identifier "NOPE" (in no family table). -/
def tenvUnknownAlg : TokenEnv where
  parseHeader := fun _ => .ok (⟨"NOPE", "kid1"⟩, [])
  verifyAndParseClaims := fun _ _ _ _ => .ok ⟨"", 7⟩

/-- A concrete x509 environment: decryption succeeds exactly for the
password [7], every certificate block parses to the single RSA key 3,
public-key blocks parse to the RSA key 4, and the private-key parsers
yield fixed keys with public components 21 and 22. -/
def x509Test : X509Env where
  decrypt := fun block pw => if pw = [7] then .ok block.bytes else .error "bad password"
  parseCertificates := fun _ => .ok [.rsaPub 3]
  parsePKIXPublicKey := fun _ => .ok (.rsaPub 4)
  parseECPrivateKey := fun _ => .ok ⟨21, 99⟩
  parsePKCS1PrivateKey := fun _ => .ok ⟨22, 98⟩

/-- Same as `x509Test` except for the private scalars of the parsed
private keys (the public components agree). -/
def x509TestD : X509Env where
  decrypt := fun block pw => if pw = [7] then .ok block.bytes else .error "bad password"
  parseCertificates := fun _ => .ok [.rsaPub 3]
  parsePKIXPublicKey := fun _ => .ok (.rsaPub 4)
  parseECPrivateKey := fun _ => .ok ⟨21, 77⟩
  parsePKCS1PrivateKey := fun _ => .ok ⟨22, 76⟩

/-- An x509 environment whose certificate parser yields two RSA keys for
every certificate block. -/
def certEnvTwo : X509Env where
  decrypt := fun block _ => .ok block.bytes
  parseCertificates := fun _ => .ok [.rsaPub 1, .rsaPub 2]
  parsePKIXPublicKey := fun _ => .ok (.rsaPub 4)
  parseECPrivateKey := fun _ => .ok ⟨21, 99⟩
  parsePKCS1PrivateKey := fun _ => .ok ⟨22, 98⟩

/-- An x509 environment whose certificate parser yields one RSA key
followed by an unsupported key object. -/
def certEnvPartial : X509Env where
  decrypt := fun block _ => .ok block.bytes
  parseCertificates := fun _ => .ok [.rsaPub 1, .other "X"]
  parsePKIXPublicKey := fun _ => .ok (.rsaPub 4)
  parseECPrivateKey := fun _ => .ok ⟨21, 99⟩
  parsePKCS1PrivateKey := fun _ => .ok ⟨22, 98⟩

/-- An unencrypted certificate block. -/
def certBlock : PEMBlock := ⟨"CERTIFICATE", false, [10]⟩

/-- An unencrypted public-key block. -/
def pubBlock : PEMBlock := ⟨"PUBLIC KEY", false, [11]⟩

/-- An unencrypted EC private-key block. -/
def ecBlock : PEMBlock := ⟨"EC PRIVATE KEY", false, [13]⟩

/-- An unencrypted block with an unrecognized type label. -/
def fooBlock : PEMBlock := ⟨"FOO", false, [12]⟩

theorem verifyHMAC_ok_iff (env : CryptoEnv) (secrets : List (List Nat))
    (content sig : List Nat) (hash : Hash) :
    verifyHMAC env secrets content sig hash = .ok () ↔
      ∃ secret ∈ secrets, sig = env.hmacSum hash secret content := by
  induction secrets with
  | nil => simp [verifyHMAC]
  | cons s rest ih =>
      by_cases hc : sig = env.hmacSum hash s content
      · simp [verifyHMAC, hc]
      · simp [verifyHMAC, hc, ih]

theorem verifyHMAC_cases (env : CryptoEnv) (secrets : List (List Nat))
    (content sig : List Nat) (hash : Hash) :
    verifyHMAC env secrets content sig hash = .ok () ∨
      verifyHMAC env secrets content sig hash = .error Err.sigMiss := by
  induction secrets with
  | nil => simp [verifyHMAC]
  | cons s rest ih =>
      by_cases hc : sig = env.hmacSum hash s content
      · simp [verifyHMAC, hc]
      · simpa [verifyHMAC, hc] using ih

theorem verifyRSAList_ok_iff (env : CryptoEnv) (hash : Hash)
    (digestSum sig : List Nat) (keys : List Nat) :
    verifyRSAList env hash digestSum sig keys = .ok () ↔
      ∃ key ∈ keys, env.rsaVerify key hash digestSum sig = true := by
  induction keys with
  | nil => simp [verifyRSAList]
  | cons k rest ih =>
      by_cases hc : env.rsaVerify k hash digestSum sig = true
      · simp [verifyRSAList, hc]
      · simp [verifyRSAList, hc, ih]

theorem verifyRSAList_cases (env : CryptoEnv) (hash : Hash)
    (digestSum sig : List Nat) (keys : List Nat) :
    verifyRSAList env hash digestSum sig keys = .ok () ∨
      verifyRSAList env hash digestSum sig keys = .error Err.sigMiss := by
  induction keys with
  | nil => simp [verifyRSAList]
  | cons k rest ih =>
      by_cases hc : env.rsaVerify k hash digestSum sig = true
      · simp [verifyRSAList, hc]
      · simpa [verifyRSAList, hc] using ih

theorem verifyECDSAList_ok_iff (env : CryptoEnv) (digestSum : List Nat)
    (r s : Nat) (keys : List Nat) :
    verifyECDSAList env digestSum r s keys = .ok () ↔
      ∃ key ∈ keys, env.ecdsaVerify key digestSum r s = true := by
  induction keys with
  | nil => simp [verifyECDSAList]
  | cons k rest ih =>
      by_cases hc : env.ecdsaVerify k digestSum r s = true
      · simp [verifyECDSAList, hc]
      · simp [verifyECDSAList, hc, ih]

theorem verifyECDSAList_cases (env : CryptoEnv) (digestSum : List Nat)
    (r s : Nat) (keys : List Nat) :
    verifyECDSAList env digestSum r s keys = .ok () ∨
      verifyECDSAList env digestSum r s keys = .error Err.sigMiss := by
  induction keys with
  | nil => simp [verifyECDSAList]
  | cons k rest ih =>
      by_cases hc : env.ecdsaVerify k digestSum r s = true
      · simp [verifyECDSAList, hc]
      · simpa [verifyECDSAList, hc] using ih

/-- Claim C3: each per-family verifier in KeyRegister.Check succeeds
exactly when some candidate in the registry's ordered list validates the
signature, and otherwise — wrong key, tampered content, malformed
per-candidate signature, or empty candidate list alike — returns the one
uniform error value ErrSigMiss, the same in all three families. -/
theorem C3_uniform_sigmiss (env : CryptoEnv) (reg : KeyRegister)
    (content sig : List Nat) (hash : Hash) :
    (verifyHMAC env reg.Secrets content sig hash = .ok ()
       ∨ verifyHMAC env reg.Secrets content sig hash = .error Err.sigMiss)
  ∧ (verifyHMAC env reg.Secrets content sig hash = .ok () ↔
       ∃ secret ∈ reg.Secrets, sig = env.hmacSum hash secret content)
  ∧ (verifyRSA env reg.RSAs content sig hash = .ok ()
       ∨ verifyRSA env reg.RSAs content sig hash = .error Err.sigMiss)
  ∧ (verifyRSA env reg.RSAs content sig hash = .ok () ↔
       ∃ key ∈ reg.RSAs,
         env.rsaVerify key hash (env.hashSum hash content) sig = true)
  ∧ (verifyECDSA env reg.ECDSAs content sig hash = .ok ()
       ∨ verifyECDSA env reg.ECDSAs content sig hash = .error Err.sigMiss)
  ∧ (verifyECDSA env reg.ECDSAs content sig hash = .ok () ↔
       ∃ key ∈ reg.ECDSAs,
         env.ecdsaVerify key (env.hashSum hash content)
           (bytesToNat (sig.take (sig.length / 2)))
           (bytesToNat (sig.drop (sig.length / 2))) = true) :=
  ⟨verifyHMAC_cases env reg.Secrets content sig hash,
   verifyHMAC_ok_iff env reg.Secrets content sig hash,
   verifyRSAList_cases env hash (env.hashSum hash content) sig reg.RSAs,
   verifyRSAList_ok_iff env hash (env.hashSum hash content) sig reg.RSAs,
   verifyECDSAList_cases env (env.hashSum hash content) _ _ reg.ECDSAs,
   verifyECDSAList_ok_iff env (env.hashSum hash content) _ _ reg.ECDSAs⟩

/-- Claim C2 (amended): the ECDSA verifier performs no length validation
at all — every signature buffer, odd or even, is split at floor(length/2)
(first half to r, remainder to s) and verification proceeds against each
candidate key; a length-inconsistent buffer is not rejected as malformed
but simply fails candidate verification and yields ErrSigMiss. -/
theorem C2_amended_ecdsa_no_length_check (env : CryptoEnv) (keys : List Nat)
    (content sig : List Nat) (hash : Hash) :
    verifyECDSA env keys content sig hash =
      if keys.any (fun key => env.ecdsaVerify key (env.hashSum hash content)
          (bytesToNat (sig.take (sig.length / 2)))
          (bytesToNat (sig.drop (sig.length / 2))))
      then .ok () else .error Err.sigMiss := by
  show verifyECDSAList env (env.hashSum hash content)
    (bytesToNat (sig.take (sig.length / 2)))
    (bytesToNat (sig.drop (sig.length / 2))) keys = _
  rcases verifyECDSAList_cases env (env.hashSum hash content)
      (bytesToNat (sig.take (sig.length / 2)))
      (bytesToNat (sig.drop (sig.length / 2))) keys with h | h
  · rw [h, if_pos]
    exact List.any_eq_true.mpr
      ((verifyECDSAList_ok_iff env (env.hashSum hash content)
        (bytesToNat (sig.take (sig.length / 2)))
        (bytesToNat (sig.drop (sig.length / 2))) keys).mp h)
  · rw [h, if_neg]
    intro hc
    have hok := (verifyECDSAList_ok_iff env (env.hashSum hash content)
        (bytesToNat (sig.take (sig.length / 2)))
        (bytesToNat (sig.drop (sig.length / 2))) keys).mpr
      (List.any_eq_true.mp hc)
    rw [hok] at h
    cases h

/-- Claim C2 counterexample: with the odd-length signature buffer
[1, 2, 3] the ECDSA verifier does not fail as malformed before attempting
candidates — it splits the buffer at floor(3/2) = 1 into r = 1 and
s = 515, attempts the sole candidate key, and (the abstract curve
accepting) succeeds. -/
theorem C2_counterexample :
    [1, 2, 3].length % 2 = 1 ∧
    verifyECDSA cenvAccept [5] [9] [1, 2, 3] .SHA256 = .ok () ∧
    bytesToNat ([1, 2, 3].take ([1, 2, 3].length / 2)) = 1 ∧
    bytesToNat ([1, 2, 3].drop ([1, 2, 3].length / 2)) = 515 := by
  refine ⟨rfl, ?_, rfl, rfl⟩
  rfl

/-- Claim C1: KeyRegister.Check tries the family tables in the fixed
order HMAC, then RSA, then ECDSA; a family's verifier is selected exactly
when that family's table is the first to produce a hash hit for the
token's algorithm identifier; and when the identifier is in none of the
three tables, Check returns the unknown-algorithm error and produces no
claims. -/
theorem C1_family_dispatch (h : Header) :
    (∀ hsh, HMACAlgs.lookup h.Alg = some hsh →
        selectVerifier h = .ok (.hmac, hsh))
  ∧ (HMACAlgs.lookup h.Alg = none → ∀ hsh, RSAAlgs.lookup h.Alg = some hsh →
        selectVerifier h = .ok (.rsa, hsh))
  ∧ (HMACAlgs.lookup h.Alg = none → RSAAlgs.lookup h.Alg = none →
        ∀ hsh, ECDSAAlgs.lookup h.Alg = some hsh →
        selectVerifier h = .ok (.ecdsa, hsh))
  ∧ (∀ fam hsh, selectVerifier h = .ok (fam, hsh) →
        (famTable fam).lookup h.Alg = some hsh)
  ∧ (HMACAlgs.lookup h.Alg = none → RSAAlgs.lookup h.Alg = none →
        ECDSAAlgs.lookup h.Alg = none →
        selectVerifier h = .error Err.algUnk ∧
        ∀ tenv cenv reg token buf, tenv.parseHeader token = .ok (h, buf) →
          KeyRegister.Check tenv cenv reg token = (reg, .error Err.algUnk)) := by
  refine ⟨?_, ?_, ?_, ?_, ?_⟩
  · intro hsh hl
    simp [selectVerifier, Header.matchAlgs, hl]
  · intro h1 hsh hl
    simp [selectVerifier, Header.matchAlgs, h1, hl]
  · intro h1 h2 hsh hl
    simp [selectVerifier, Header.matchAlgs, h1, h2, hl]
  · intro fam hsh hsel
    rcases e1 : HMACAlgs.lookup h.Alg with _ | v1
    · rcases e2 : RSAAlgs.lookup h.Alg with _ | v2
      · rcases e3 : ECDSAAlgs.lookup h.Alg with _ | v3
        · simp [selectVerifier, Header.matchAlgs, e1, e2, e3] at hsel
        · simp [selectVerifier, Header.matchAlgs, e1, e2, e3] at hsel
          obtain ⟨hf, hv⟩ := hsel
          subst hf
          subst hv
          simpa [famTable] using e3
      · simp [selectVerifier, Header.matchAlgs, e1, e2] at hsel
        obtain ⟨hf, hv⟩ := hsel
        subst hf
        subst hv
        simpa [famTable] using e2
    · simp [selectVerifier, Header.matchAlgs, e1] at hsel
      obtain ⟨hf, hv⟩ := hsel
      subst hf
      subst hv
      simpa [famTable] using e1
  · intro h1 h2 h3
    have hsel : selectVerifier h = .error Err.algUnk := by
      simp [selectVerifier, Header.matchAlgs, h1, h2, h3]
    refine ⟨hsel, ?_⟩
    intro tenv cenv reg token buf hp
    simp [KeyRegister.Check, hp, hsel]

/-- Claim C1 witness: the algorithm identifier "NOPE" is in none of the
three tables, and Check on a token whose header carries it returns the
unknown-algorithm error and no claims. -/
theorem C1_witness :
    KeyRegister.Check tenvUnknownAlg cenvAccept reg0 [] =
      (reg0, .error Err.algUnk) :=
  ((C1_family_dispatch ⟨"NOPE", "kid1"⟩).2.2.2.2 rfl rfl rfl).2
    tenvUnknownAlg cenvAccept reg0 [] [] rfl

theorem add_credCount (r : KeyRegister) (key : KeyObj) (r2 : KeyRegister)
    (ob : Option Err) (h : r.add key = (r2, ob)) :
    (ob = none → credCount r2 = credCount r + 1) ∧
      (ob.isSome = true → r2 = r) := by
  cases key with
  | ecdsaPub k =>
      simp only [KeyRegister.add, Prod.mk.injEq] at h
      obtain ⟨h1, h2⟩ := h
      subst h1
      subst h2
      refine ⟨fun _ => ?_, fun hs => by cases hs⟩
      simp [credCount]
      omega
  | rsaPub k =>
      simp only [KeyRegister.add, Prod.mk.injEq] at h
      obtain ⟨h1, h2⟩ := h
      subst h1
      subst h2
      refine ⟨fun _ => ?_, fun hs => by cases hs⟩
      simp [credCount]
      omega
  | other desc =>
      simp only [KeyRegister.add, Prod.mk.injEq] at h
      obtain ⟨h1, h2⟩ := h
      subst h1
      subst h2
      constructor
      · intro hn
        cases hn
      · intro _
        rfl

theorem addAll_err_shape (ks : List KeyObj) :
    ∀ (r r2 : KeyRegister) (e : Err), addAll r ks = (r2, some e) →
      ∃ s, e = Err.unsupportedKeyType s := by
  induction ks with
  | nil =>
      intro r r2 e h
      simp [addAll] at h
  | cons k rest ih =>
      intro r r2 e h
      cases k with
      | ecdsaPub v =>
          simp only [addAll, KeyRegister.add] at h
          exact ih _ r2 e h
      | rsaPub v =>
          simp only [addAll, KeyRegister.add] at h
          exact ih _ r2 e h
      | other desc =>
          simp only [addAll, KeyRegister.add, Prod.mk.injEq] at h
          obtain ⟨-, h2⟩ := h
          exact ⟨desc, (Option.some.injEq _ _ ▸ h2).symm⟩

theorem LoadPEM_none_count (env : X509Env) (data : List PEMBlock)
    (pw : List Nat) : ∀ (r r2 : KeyRegister) (n : Nat),
    KeyRegister.LoadPEM env r data pw = (n, r2, none) → n = data.length := by
  induction data with
  | nil =>
      intro r r2 n hload
      simp only [KeyRegister.LoadPEM, Prod.mk.injEq] at hload
      exact hload.1.symm
  | cons b rest ih =>
      intro r r2 n hload
      rcases hpb : processBlock env r b pw with ⟨rb, ob⟩
      cases ob with
      | some e =>
          simp only [KeyRegister.LoadPEM, hpb, Prod.mk.injEq] at hload
          exact absurd hload.2.2 (by simp)
      | none =>
          rcases hL : KeyRegister.LoadPEM env rb rest pw with ⟨n2, r3, e2⟩
          simp only [KeyRegister.LoadPEM, hpb, hL, Prod.mk.injEq] at hload
          obtain ⟨hn, -, he⟩ := hload
          rw [he] at hL
          rw [← hn, ih rb r3 n2 hL]
          simp

/-- Claim C6 (amended): whenever LoadPEM fails on a block, it stops
immediately and returns the count of blocks already fully processed
alongside the error, and every credential appended before the failure
remains in the registry (the failing certificate block itself may also
have appended credentials parsed before its failing entry); loading N
fully processed blocks followed by one invalid block reports the error
with count N. -/
theorem C6_amended_partial_load (env : X509Env) (good : List PEMBlock) :
    ∀ (r r1 r2 : KeyRegister) (bad : PEMBlock) (rest : List PEMBlock)
      (pw : List Nat) (n : Nat) (e : Err),
    KeyRegister.LoadPEM env r good pw = (n, r1, none) →
    processBlock env r1 bad pw = (r2, some e) →
    KeyRegister.LoadPEM env r (good ++ bad :: rest) pw = (n, r2, some e) ∧
      n = good.length := by
  induction good with
  | nil =>
      intro r r1 r2 bad rest pw n e hgood hbad
      simp only [KeyRegister.LoadPEM, Prod.mk.injEq] at hgood
      obtain ⟨hn, hr, -⟩ := hgood
      subst hn
      subst hr
      refine ⟨?_, rfl⟩
      simp [KeyRegister.LoadPEM, hbad]
  | cons b gs ih =>
      intro r r1 r2 bad rest pw n e hgood hbad
      rcases hpb : processBlock env r b pw with ⟨rb, ob⟩
      cases ob with
      | some e2 =>
          simp only [KeyRegister.LoadPEM, hpb, Prod.mk.injEq] at hgood
          exact absurd hgood.2.2 (by simp)
      | none =>
          rcases hL : KeyRegister.LoadPEM env rb gs pw with ⟨n2, r3, e2⟩
          simp only [KeyRegister.LoadPEM, hpb, hL, Prod.mk.injEq] at hgood
          obtain ⟨hn, hr, he⟩ := hgood
          rw [he] at hL
          rw [hr] at hL
          obtain ⟨hmain, hcount⟩ := ih rb r1 r2 bad rest pw n2 e hL hbad
          constructor
          · rw [List.cons_append]
            simp only [KeyRegister.LoadPEM, List.append_eq, hpb, hmain]
            rw [← hn]
          · rw [← hn, hcount]
            simp

/-- Claim C6 counterexample: with zero valid blocks followed by one
invalid certificate block (whose DER bytes parse to one RSA key and then
an unsupported key object), LoadPEM reports count 0 with the error, yet
one credential was registered — "loading N valid blocks followed by one
invalid block registers exactly N credentials" fails at N = 0. -/
theorem C6_counterexample :
    KeyRegister.LoadPEM certEnvPartial reg0 [certBlock] [] =
      (0, ⟨[], [1], []⟩, some (Err.unsupportedKeyType "X")) ∧
    credCount ⟨[], [1], []⟩ = 1 := ⟨rfl, rfl⟩

/-- Claim C6 witness: one valid public-key block followed by an
unknown-type block gives count 1, keeps the first block's credential,
and reports the unknown-type error. -/
theorem C6_witness :
    KeyRegister.LoadPEM x509Test reg0 [pubBlock, fooBlock] [] =
      (1, ⟨[], [4], []⟩, some (Err.unknownPEMType "FOO")) ∧
    (1 : Nat) = [pubBlock].length :=
  C6_amended_partial_load x509Test [pubBlock] reg0 ⟨[], [4], []⟩
    ⟨[], [4], []⟩ fooBlock [] [] 1 (Err.unknownPEMType "FOO") rfl rfl

theorem dispatchBlock_credCount (env : X509Env)
    (hone : ∀ bytes certs, env.parseCertificates bytes = .ok certs →
      certs.length = 1)
    (r : KeyRegister) (type : String) (bytes : List Nat)
    (rb : KeyRegister) (ob : Option Err)
    (h : dispatchBlock env r type bytes = (rb, ob)) :
    credCount rb = credCount r + (if ob = none then 1 else 0) := by
  by_cases h1 : type = "CERTIFICATE"
  · rcases hc : env.parseCertificates bytes with e | certs
    · simp [dispatchBlock, h1, hc] at h
      obtain ⟨hr, ho⟩ := h
      subst hr
      subst ho
      simp
    · have hlen := hone bytes certs hc
      rcases certs with _ | ⟨k, _ | ⟨k2, rest⟩⟩
      · simp at hlen
      · simp only [dispatchBlock, h1, if_true] at h
        rw [hc] at h
        cases k with
        | ecdsaPub v =>
            simp [addAll, KeyRegister.add] at h
            obtain ⟨hr, ho⟩ := h
            subst hr
            subst ho
            simp [credCount]
            omega
        | rsaPub v =>
            simp [addAll, KeyRegister.add] at h
            obtain ⟨hr, ho⟩ := h
            subst hr
            subst ho
            simp [credCount]
            omega
        | other desc =>
            simp [addAll, KeyRegister.add] at h
            obtain ⟨hr, ho⟩ := h
            subst hr
            subst ho
            simp
      · simp at hlen
  · by_cases h2 : type = "PUBLIC KEY"
    · rcases hc : env.parsePKIXPublicKey bytes with e | key
      · simp [dispatchBlock, h1, h2, hc] at h
        obtain ⟨hr, ho⟩ := h
        subst hr
        subst ho
        simp
      · cases key with
        | ecdsaPub v =>
            simp [dispatchBlock, h1, h2, hc, KeyRegister.add] at h
            obtain ⟨hr, ho⟩ := h
            subst hr
            subst ho
            simp [credCount]
            omega
        | rsaPub v =>
            simp [dispatchBlock, h1, h2, hc, KeyRegister.add] at h
            obtain ⟨hr, ho⟩ := h
            subst hr
            subst ho
            simp [credCount]
            omega
        | other desc =>
            simp [dispatchBlock, h1, h2, hc, KeyRegister.add] at h
            obtain ⟨hr, ho⟩ := h
            subst hr
            subst ho
            simp
    · by_cases h3 : type = "EC PRIVATE KEY"
      · rcases hc : env.parseECPrivateKey bytes with e | key
        · simp [dispatchBlock, h1, h2, h3, hc] at h
          obtain ⟨hr, ho⟩ := h
          subst hr
          subst ho
          simp
        · simp [dispatchBlock, h1, h2, h3, hc] at h
          obtain ⟨hr, ho⟩ := h
          subst hr
          subst ho
          simp [credCount]
          omega
      · by_cases h4 : type = "RSA PRIVATE KEY"
        · rcases hc : env.parsePKCS1PrivateKey bytes with e | key
          · simp [dispatchBlock, h1, h2, h3, h4, hc] at h
            obtain ⟨hr, ho⟩ := h
            subst hr
            subst ho
            simp
          · simp [dispatchBlock, h1, h2, h3, h4, hc] at h
            obtain ⟨hr, ho⟩ := h
            subst hr
            subst ho
            simp [credCount]
            omega
        · simp [dispatchBlock, h1, h2, h3, h4] at h
          obtain ⟨hr, ho⟩ := h
          subst hr
          subst ho
          simp

theorem processBlock_credCount (env : X509Env)
    (hone : ∀ bytes certs, env.parseCertificates bytes = .ok certs →
      certs.length = 1)
    (r : KeyRegister) (b : PEMBlock) (pw : List Nat) (rb : KeyRegister)
    (ob : Option Err) (h : processBlock env r b pw = (rb, ob)) :
    credCount rb = credCount r + (if ob = none then 1 else 0) := by
  by_cases henc : b.encrypted
  · rcases hd : env.decrypt b pw with e | bytes
    · simp [processBlock, henc, hd] at h
      obtain ⟨hr, ho⟩ := h
      subst hr
      subst ho
      simp
    · simp [processBlock, henc, hd] at h
      exact dispatchBlock_credCount env hone r b.type bytes rb ob h
  · by_cases hpw : pw.length = 0
    · simp [processBlock, henc, hpw] at h
      exact dispatchBlock_credCount env hone r b.type b.bytes rb ob h
    · simp [processBlock, henc, hpw] at h
      obtain ⟨hr, ho⟩ := h
      subst hr
      subst ho
      simp

/-- Claim C4 (amended): LoadPEM returns the count of successfully
processed PEM blocks; provided every certificate block parses to exactly
one certificate, that count equals the number of credentials appended to
the registry's sets during the call (in success and failure outcomes
alike), but a certificate block carrying several certificates appends
them all while adding only one to the count. -/
theorem C4_amended_count (env : X509Env)
    (hone : ∀ bytes certs, env.parseCertificates bytes = .ok certs →
      certs.length = 1)
    (data : List PEMBlock) :
    ∀ (r r2 : KeyRegister) (pw : List Nat) (n : Nat) (e : Option Err),
    KeyRegister.LoadPEM env r data pw = (n, r2, e) →
    credCount r2 = credCount r + n := by
  induction data with
  | nil =>
      intro r r2 pw n e hload
      simp only [KeyRegister.LoadPEM, Prod.mk.injEq] at hload
      obtain ⟨hn, hr, -⟩ := hload
      subst hn
      subst hr
      simp
  | cons b rest ih =>
      intro r r2 pw n e hload
      rcases hpb : processBlock env r b pw with ⟨rb, ob⟩
      cases ob with
      | some e2 =>
          simp only [KeyRegister.LoadPEM, hpb, Prod.mk.injEq] at hload
          obtain ⟨hn, hr, -⟩ := hload
          subst hn
          subst hr
          have := processBlock_credCount env hone r b pw rb (some e2) hpb
          simpa using this
      | none =>
          rcases hL : KeyRegister.LoadPEM env rb rest pw with ⟨n2, r3, e2⟩
          simp only [KeyRegister.LoadPEM, hpb, hL, Prod.mk.injEq] at hload
          obtain ⟨hn, hr, -⟩ := hload
          subst hn
          subst hr
          have h1 := processBlock_credCount env hone r b pw rb none hpb
          have h2 := ih rb r3 pw n2 e2 hL
          simp at h1
          omega

/-- Claim C4 counterexample: a single certificate block whose DER bytes
parse to two certificates appends two credentials (RSA keys 1 and 2),
yet LoadPEM returns count 1 — the returned n counts processed blocks,
not registered credentials. -/
theorem C4_counterexample :
    KeyRegister.LoadPEM certEnvTwo reg0 [certBlock] [] =
      (1, ⟨[], [1, 2], []⟩, none) ∧
    credCount ⟨[], [1, 2], []⟩ = 2 ∧ (1 : Nat) ≠ 2 :=
  ⟨rfl, rfl, by decide⟩

/-- Claim C4 witness: with every certificate block contributing exactly
one credential, loading one certificate block yields count 1 and exactly
one appended credential. -/
theorem C4_witness : credCount ⟨[], [3], []⟩ = credCount reg0 + 1 :=
  C4_amended_count x509Test
    (fun _ certs hcert => by injection hcert with h; rw [← h]; rfl)
    [certBlock] reg0 ⟨[], [3], []⟩ [] 1 none rfl

theorem dispatchBlock_public_congr (env1 env2 : X509Env)
    (hcert : env1.parseCertificates = env2.parseCertificates)
    (hpkix : env1.parsePKIXPublicKey = env2.parsePKIXPublicKey)
    (hec : ∀ bytes, (env1.parseECPrivateKey bytes).map ECPrivateKey.PublicKey
                  = (env2.parseECPrivateKey bytes).map ECPrivateKey.PublicKey)
    (hrsa : ∀ bytes,
      (env1.parsePKCS1PrivateKey bytes).map RSAPrivateKey.PublicKey
        = (env2.parsePKCS1PrivateKey bytes).map RSAPrivateKey.PublicKey)
    (r : KeyRegister) (type : String) (bytes : List Nat) :
    dispatchBlock env1 r type bytes = dispatchBlock env2 r type bytes := by
  unfold dispatchBlock
  rw [hcert, hpkix]
  by_cases h3 : type = "EC PRIVATE KEY"
  · simp only [h3]
    have h := hec bytes
    rcases e1 : env1.parseECPrivateKey bytes with er1 | k1 <;>
      rcases e2 : env2.parseECPrivateKey bytes with er2 | k2
    · rw [e1, e2] at h
      simp only [Except.map, Except.error.injEq] at h
      simp [h]
    · rw [e1, e2] at h
      simp [Except.map] at h
    · rw [e1, e2] at h
      simp [Except.map] at h
    · rw [e1, e2] at h
      simp only [Except.map, Except.ok.injEq] at h
      simp [h]
  · by_cases h4 : type = "RSA PRIVATE KEY"
    · simp only [h4]
      have h := hrsa bytes
      rcases e1 : env1.parsePKCS1PrivateKey bytes with er1 | k1 <;>
        rcases e2 : env2.parsePKCS1PrivateKey bytes with er2 | k2
      · rw [e1, e2] at h
        simp only [Except.map, Except.error.injEq] at h
        simp [h]
      · rw [e1, e2] at h
        simp [Except.map] at h
      · rw [e1, e2] at h
        simp [Except.map] at h
      · rw [e1, e2] at h
        simp only [Except.map, Except.ok.injEq] at h
        simp [h]
    · simp [h3, h4]

theorem processBlock_public_congr (env1 env2 : X509Env)
    (hdec : env1.decrypt = env2.decrypt)
    (hcert : env1.parseCertificates = env2.parseCertificates)
    (hpkix : env1.parsePKIXPublicKey = env2.parsePKIXPublicKey)
    (hec : ∀ bytes, (env1.parseECPrivateKey bytes).map ECPrivateKey.PublicKey
                  = (env2.parseECPrivateKey bytes).map ECPrivateKey.PublicKey)
    (hrsa : ∀ bytes,
      (env1.parsePKCS1PrivateKey bytes).map RSAPrivateKey.PublicKey
        = (env2.parsePKCS1PrivateKey bytes).map RSAPrivateKey.PublicKey)
    (r : KeyRegister) (b : PEMBlock) (pw : List Nat) :
    processBlock env1 r b pw = processBlock env2 r b pw := by
  unfold processBlock
  rw [hdec]
  by_cases henc : b.encrypted
  · simp only [henc, if_true]
    rcases hd : env2.decrypt b pw with e | bytes
    · rfl
    · exact dispatchBlock_public_congr env1 env2 hcert hpkix hec hrsa
        r b.type bytes
  · by_cases hpw : pw.length = 0
    · simp only [henc, hpw]
      exact dispatchBlock_public_congr env1 env2 hcert hpkix hec hrsa
        r b.type b.bytes
    · simp [henc, hpw]

/-- Claim C5: the registry stores only HMAC secrets and public keys —
its three sets hold no private key material.  Structurally, every
private-key block appends only the parsed key's PublicKey component
(lines 136 and 143); semantically, the whole LoadPEM outcome (count,
register, error) is unchanged when the private components of parsed
private keys are replaced arbitrarily while their public components are
kept, so the discarded private material never flows into the registry.
Direct appends (`add`) accept only public key objects by construction. -/
theorem C5_no_private_material (env1 env2 : X509Env)
    (hdec : env1.decrypt = env2.decrypt)
    (hcert : env1.parseCertificates = env2.parseCertificates)
    (hpkix : env1.parsePKIXPublicKey = env2.parsePKIXPublicKey)
    (hec : ∀ bytes, (env1.parseECPrivateKey bytes).map ECPrivateKey.PublicKey
                  = (env2.parseECPrivateKey bytes).map ECPrivateKey.PublicKey)
    (hrsa : ∀ bytes,
      (env1.parsePKCS1PrivateKey bytes).map RSAPrivateKey.PublicKey
        = (env2.parsePKCS1PrivateKey bytes).map RSAPrivateKey.PublicKey)
    (r : KeyRegister) (data : List PEMBlock) (pw : List Nat) :
    KeyRegister.LoadPEM env1 r data pw = KeyRegister.LoadPEM env2 r data pw := by
  induction data generalizing r with
  | nil => rfl
  | cons b rest ih =>
      have hp := processBlock_public_congr env1 env2 hdec hcert hpkix hec hrsa
        r b pw
      simp only [KeyRegister.LoadPEM, hp]
      rcases hpb : processBlock env2 r b pw with ⟨rb, ob⟩
      cases ob with
      | some e => rfl
      | none => simp [ih rb]

/-- Claim C5 witness: two environments whose EC/RSA private-key parsers
agree on public components but differ in the private scalars produce the
same register from the same EC private-key block. -/
theorem C5_witness :
    KeyRegister.LoadPEM x509Test reg0 [ecBlock] [] =
      KeyRegister.LoadPEM x509TestD reg0 [ecBlock] [] :=
  C5_no_private_material x509Test x509TestD rfl rfl rfl
    (fun _ => rfl) (fun _ => rfl) reg0 [ecBlock] []

theorem dispatchBlock_err_shape (env : X509Env) (r : KeyRegister)
    (type : String) (bytes : List Nat) (r2 : KeyRegister) (e : Err)
    (h : dispatchBlock env r type bytes = (r2, some e)) :
    e ≠ Err.unencryptedPEM ∧ ∀ s, e ≠ Err.decryptErr s := by
  by_cases h1 : type = "CERTIFICATE"
  · rcases hc : env.parseCertificates bytes with er | certs
    · simp [dispatchBlock, h1, hc] at h
      obtain ⟨-, ho⟩ := h
      subst ho
      refine ⟨by simp, by simp⟩
    · simp only [dispatchBlock, h1, if_true] at h
      rw [hc] at h
      obtain ⟨s, hs⟩ := addAll_err_shape certs r r2 e h
      subst hs
      refine ⟨by simp, by simp⟩
  · by_cases h2 : type = "PUBLIC KEY"
    · rcases hc : env.parsePKIXPublicKey bytes with er | key
      · simp [dispatchBlock, h1, h2, hc] at h
        obtain ⟨-, ho⟩ := h
        subst ho
        refine ⟨by simp, by simp⟩
      · cases key with
        | ecdsaPub v => simp [dispatchBlock, h1, h2, hc, KeyRegister.add] at h
        | rsaPub v => simp [dispatchBlock, h1, h2, hc, KeyRegister.add] at h
        | other desc =>
            simp [dispatchBlock, h1, h2, hc, KeyRegister.add] at h
            obtain ⟨-, ho⟩ := h
            subst ho
            refine ⟨by simp, by simp⟩
    · by_cases h3 : type = "EC PRIVATE KEY"
      · rcases hc : env.parseECPrivateKey bytes with er | key
        · simp [dispatchBlock, h1, h2, h3, hc] at h
          obtain ⟨-, ho⟩ := h
          subst ho
          refine ⟨by simp, by simp⟩
        · simp [dispatchBlock, h1, h2, h3, hc] at h
      · by_cases h4 : type = "RSA PRIVATE KEY"
        · rcases hc : env.parsePKCS1PrivateKey bytes with er | key
          · simp [dispatchBlock, h1, h2, h3, h4, hc] at h
            obtain ⟨-, ho⟩ := h
            subst ho
            refine ⟨by simp, by simp⟩
          · simp [dispatchBlock, h1, h2, h3, h4, hc] at h
        · simp [dispatchBlock, h1, h2, h3, h4] at h
          obtain ⟨-, ho⟩ := h
          subst ho
          refine ⟨by simp, by simp⟩

/-- Claim C7: a block that declares password protection is decrypted with
the supplied password, failing with a decryption error exactly when
decryption fails (wrong or absent password); an unprotected block with a
non-empty password fails with the policy error errUnencryptedPEM, and
that error arises in no other situation; a protected block whose
decryption succeeds, or an unprotected block with no password, proceeds
to the normal type dispatch on the resulting bytes. -/
theorem C7_password_policy (env : X509Env) (r : KeyRegister)
    (block : PEMBlock) (pw : List Nat) :
    (block.encrypted = true → ∀ e, env.decrypt block pw = .error e →
        processBlock env r block pw = (r, some (Err.decryptErr e)))
  ∧ (block.encrypted = true → ∀ bytes, env.decrypt block pw = .ok bytes →
        processBlock env r block pw = dispatchBlock env r block.type bytes)
  ∧ (block.encrypted = false → pw.length ≠ 0 →
        processBlock env r block pw = (r, some Err.unencryptedPEM))
  ∧ (block.encrypted = false → pw.length = 0 →
        processBlock env r block pw =
          dispatchBlock env r block.type block.bytes)
  ∧ (∀ r2, processBlock env r block pw = (r2, some Err.unencryptedPEM) →
        block.encrypted = false ∧ pw.length ≠ 0 ∧ r2 = r)
  ∧ (∀ r2 e, processBlock env r block pw = (r2, some (Err.decryptErr e)) →
        block.encrypted = true ∧ env.decrypt block pw = .error e ∧
          r2 = r) := by
  refine ⟨?_, ?_, ?_, ?_, ?_, ?_⟩
  · intro henc e hd
    simp [processBlock, henc, hd]
  · intro henc bytes hd
    simp [processBlock, henc, hd]
  · intro henc hpw
    simp [processBlock, henc, hpw]
  · intro henc hpw
    simp [processBlock, henc, hpw]
  · intro r2 hpb
    by_cases henc : block.encrypted
    · rcases hd : env.decrypt block pw with e | bytes
      · simp [processBlock, henc, hd] at hpb
      · simp [processBlock, henc, hd] at hpb
        obtain ⟨hne, -⟩ := dispatchBlock_err_shape env r block.type bytes r2
          Err.unencryptedPEM hpb
        exact absurd rfl hne
    · by_cases hpw : pw.length = 0
      · simp [processBlock, henc, hpw] at hpb
        obtain ⟨hne, -⟩ := dispatchBlock_err_shape env r block.type
          block.bytes r2 Err.unencryptedPEM hpb
        exact absurd rfl hne
      · simp [processBlock, henc, hpw] at hpb
        exact ⟨by simpa using henc, hpw, hpb.symm⟩
  · intro r2 e hpb
    by_cases henc : block.encrypted
    · rcases hd : env.decrypt block pw with e2 | bytes
      · simp [processBlock, henc, hd] at hpb
        obtain ⟨hr, he⟩ := hpb
        subst he
        subst hr
        exact ⟨henc, rfl, rfl⟩
      · simp [processBlock, henc, hd] at hpb
        obtain ⟨-, hne⟩ := dispatchBlock_err_shape env r block.type bytes r2
          (Err.decryptErr e) hpb
        exact absurd rfl (hne e)
    · by_cases hpw : pw.length = 0
      · simp [processBlock, henc, hpw] at hpb
        obtain ⟨-, hne⟩ := dispatchBlock_err_shape env r block.type
          block.bytes r2 (Err.decryptErr e) hpb
        exact absurd rfl (hne e)
      · simp [processBlock, henc, hpw] at hpb

/-- Claim C7 witness: an unencrypted block supplied together with the
non-empty password [1] is rejected with errUnencryptedPEM and the
registry is left unchanged. -/
theorem C7_witness :
    processBlock x509Test reg0 pubBlock [1] =
      (reg0, some Err.unencryptedPEM) :=
  (C7_password_policy x509Test reg0 pubBlock [1]).2.2.1 rfl (by decide)

/-- Claim C9: Check is read-only with respect to the registry: for every
token, every environment and every registry, the registry value (all
three credential sets) coming out of the call equals the one going in.
The embedding threads the register through every branch of Check exactly
as the source leaves it — `register.go` contains no assignment to
`reg.ECDSAs`, `reg.RSAs` or `reg.Secrets` — and, being a pure function of
its arguments, retains no state between calls. -/
theorem C9_check_readonly (tenv : TokenEnv) (cenv : CryptoEnv)
    (reg : KeyRegister) (token : List Nat) :
    (KeyRegister.Check tenv cenv reg token).1 = reg := by
  unfold KeyRegister.Check
  split
  · rfl
  · split
    · rfl
    · split
      · rfl
      · rfl

/-- Claim C10: a buffer from which no PEM block can be decoded — the
empty buffer or arbitrary non-PEM bytes, which `pem.Decode` turns into
the empty block sequence, just as it silently drops undecodable trailing
bytes after the last block — makes LoadPEM return count 0 with no error
and the registry unchanged. -/
theorem C10_no_decodable_block (env : X509Env) (r : KeyRegister)
    (pw : List Nat) : KeyRegister.LoadPEM env r [] pw = (0, r, none) := rfl
